import Mathlib

/-!
Verification of the GEARBox.Factorio pixel-processing pipeline.

The definitions below are a shallow embedding of the image-processing code in
src/GEARBox.Factorio (IconProcessor/Processor.cs, PictureProcessor/Processor.cs
and the IconProcessor Program). Pixel buffers are modelled as a width, a height
and a pixel function; machine doubles are modelled as exact rationals; byte
casts are modelled as truncation (the values involved stay far from the
truncation boundaries, so exact rational arithmetic agrees with the double
arithmetic of the source on the claims under verification); code that throws
is modelled with Except.
-/

namespace GEARBoxFactorio

/-- One RGBA pixel: four byte channels, modelled as naturals. -/
structure Rgba where
  r : Nat
  g : Nat
  b : Nat
  a : Nat
deriving DecidableEq, Repr

/-- The fully transparent pixel, the content of a freshly allocated image. -/
def Rgba.clear : Rgba := ⟨0, 0, 0, 0⟩

/-- A rectangular RGBA pixel buffer (the Image of the source). -/
structure Buffer where
  width : Nat
  height : Nat
  pix : Nat → Nat → Rgba

/-- The error taxonomy of the pipeline, named as in the specification.
TrimWhitespace throws on an entirely transparent image (emptyImage); the
imaging layer rejects non-positive computed dimensions (invalidDimension). -/
inductive PErr where
  | emptyImage
  | invalidDimension
deriving DecidableEq, Repr

/-- The pixel coordinates visited by the nested loops of the source
(x outer from 0 to width, y inner from 0 to height). -/
def pixelSeq (w h : Nat) : List (Nat × Nat) :=
  (List.range w).product (List.range h)

/-- The four scan locals of TrimWhitespace: minX, minY initialised to
width and height, maxX, maxY initialised to -1. -/
structure ScanState where
  minX : Int
  minY : Int
  maxX : Int
  maxY : Int
deriving DecidableEq, Repr

/-- One iteration of the TrimWhitespace scan loop: a pixel with alpha above
the zero threshold shrinks the minima and grows the maxima. -/
def scanStep (b : Buffer) (st : ScanState) (p : Nat × Nat) : ScanState :=
  if 0 < (b.pix p.1 p.2).a then
    ⟨min st.minX p.1, min st.minY p.2, max st.maxX p.1, max st.maxY p.2⟩
  else st

/-- The full bounding-box scan of TrimWhitespace. -/
def trimScan (b : Buffer) : ScanState :=
  (pixelSeq b.width b.height).foldl (scanStep b) ⟨b.width, b.height, -1, -1⟩

/-- The crop applied by TrimWhitespace on success: the rectangle from
(minX, minY) of inclusive size (maxX - minX + 1, maxY - minY + 1). -/
def cropOf (b : Buffer) : Buffer :=
  ⟨((trimScan b).maxX - (trimScan b).minX + 1).toNat,
   ((trimScan b).maxY - (trimScan b).minY + 1).toNat,
   fun x y => b.pix (x + (trimScan b).minX.toNat) (y + (trimScan b).minY.toNat)⟩

/-- TrimWhitespace (identical in IconProcessor/Processor.cs and
PictureProcessor/Processor.cs): scan for the bounding box of pixels with
alpha above 0; throw when none was found (maxX or maxY still -1); otherwise
crop to the inclusive bounding rectangle. -/
def trimWhitespace (b : Buffer) : Except PErr Buffer :=
  if (trimScan b).maxX < 0 ∨ (trimScan b).maxY < 0 then .error .emptyImage
  else .ok (cropOf b)

/-- Sample buffer for evaluation: 2 by 2, entirely transparent. -/
def sampleEmpty : Buffer := ⟨2, 2, fun _ _ => Rgba.clear⟩

/-- Sample buffer for evaluation: 2 by 2 with a single pixel of alpha 7. -/
def sampleDot : Buffer :=
  ⟨2, 2, fun x y => if x = 1 ∧ y = 0 then ⟨9, 9, 9, 7⟩ else Rgba.clear⟩

/-- Sample buffer for evaluation: 64 by 64, entirely transparent. -/
def sample64 : Buffer := ⟨64, 64, fun _ _ => Rgba.clear⟩

/-- Math.Round of the source with its default midpoint mode: round to the
nearest integer, ties to the nearest even integer. -/
def roundToEven (q : ℚ) : Int :=
  if q - ⌊q⌋ < 1/2 then ⌊q⌋
  else if 1/2 < q - ⌊q⌋ then ⌊q⌋ + 1
  else if ⌊q⌋ % 2 = 0 then ⌊q⌋ else ⌊q⌋ + 1

/-- Round to the nearest integer with ties away from zero — the midpoint
mode the specification names for the resize dimensions. -/
def roundHalfAwayFromZero (q : ℚ) : Int :=
  if 0 ≤ q then ⌊q + 1/2⌋ else -⌊-q + 1/2⌋

/-- Math.Round(value, 3) of the source: the default midpoint mode at three
decimal digits. -/
def roundTo3 (q : ℚ) : ℚ := (roundToEven (q * 1000) : ℚ) / 1000

/-- The byte cast of a nonnegative double value as in the source:
truncation toward zero. -/
def ratByte (q : ℚ) : Nat := (⌊q⌋).toNat

/-- The dimension computation shared by both ResizeWithAspect overloads:
branch on width strictly above height, fit the governing dimension to the
target and derive the other from the exact aspect ratio, multiply both by
the scale factor, then apply the int cast of Math.Round. -/
def resizeDims (w h : Nat) (targetSize scale : ℚ) : Int × Int :=
  if h < w then
    (roundToEven (targetSize * scale),
     roundToEven ((h : ℚ) * (targetSize / (w : ℚ)) * scale))
  else
    (roundToEven ((w : ℚ) * (targetSize / (h : ℚ)) * scale),
     roundToEven (targetSize * scale))

/-- Modelled from the spec: the straight-alpha SrcOver compositing the
imaging library applies in DrawImage, with byte conversion by truncation. -/
def overPixel (fg bg : Rgba) : Rgba :=
  let sa : ℚ := (fg.a : ℚ) / 255
  let da : ℚ := (bg.a : ℚ) / 255
  let oa : ℚ := sa + da * (1 - sa)
  if 0 < oa then
    ⟨ratByte (((fg.r : ℚ) * sa + (bg.r : ℚ) * da * (1 - sa)) / oa),
     ratByte (((fg.g : ℚ) * sa + (bg.g : ℚ) * da * (1 - sa)) / oa),
     ratByte (((fg.b : ℚ) * sa + (bg.b : ℚ) * da * (1 - sa)) / oa),
     ratByte (oa * 255)⟩
  else Rgba.clear

/-- Modelled from the spec: DrawImage of the imaging library draws src over
dst at an integer offset, clipped to the dst canvas. -/
def drawImageI (dst src : Buffer) (ox oy : Int) : Buffer :=
  ⟨dst.width, dst.height, fun x y =>
    if ox ≤ (x : Int) ∧ (x : Int) < ox + (src.width : Int)
        ∧ oy ≤ (y : Int) ∧ (y : Int) < oy + (src.height : Int)
    then overPixel (src.pix ((x : Int) - ox).toNat ((y : Int) - oy).toNat) (dst.pix x y)
    else dst.pix x y⟩

/-- Modelled from the spec: the bicubic resampling kernel lives in the
external imaging library. The claims under verification depend only on the
output dimensions, which this model produces exactly; pixel content is an
aspect-mapped sampling of the source. -/
def resample (b : Buffer) (w h : Nat) : Buffer :=
  ⟨w, h, fun x y => b.pix (x * b.width / w) (y * b.height / h)⟩

/-- ResizeWithAspect of PictureProcessor/Processor.cs: aspect-fit dimension
computation followed by the in-place bicubic resize. A non-positive computed
dimension is rejected by the imaging layer — modelled from the spec as
InvalidDimensionError, since the repository delegates that rejection to the
external imaging library. -/
def resizeWithAspectPic (b : Buffer) (targetSize scale : ℚ) : Except PErr Buffer :=
  let dims := resizeDims b.width b.height targetSize scale
  if dims.1 ≤ 0 ∨ dims.2 ≤ 0 then .error .invalidDimension
  else .ok (resample b dims.1.toNat dims.2.toNat)

/-- ResizeWithAspect of IconProcessor/Processor.cs: as the picture version,
then pad onto a square canvas of side Math.Round(targetSize * scale), the
resized image drawn at the rounded anchor offset. A non-positive canvas side
is rejected by the imaging layer — modelled from the spec as
InvalidDimensionError. -/
def resizeWithAspectIcon (b : Buffer) (targetSize scale : ℚ) (anchor : ℚ × ℚ) :
    Except PErr Buffer :=
  let dims := resizeDims b.width b.height targetSize scale
  if dims.1 ≤ 0 ∨ dims.2 ≤ 0 then .error .invalidDimension
  else
    let resized := resample b dims.1.toNat dims.2.toNat
    let canvasSize := roundToEven (targetSize * scale)
    if canvasSize ≤ 0 then .error .invalidDimension
    else
      let padLeft := roundToEven (((canvasSize : ℚ) - (resized.width : ℚ)) * anchor.1)
      let padTop := roundToEven (((canvasSize : ℚ) - (resized.height : ℚ)) * anchor.2)
      .ok (drawImageI ⟨canvasSize.toNat, canvasSize.toNat, fun _ _ => Rgba.clear⟩
            resized padLeft padTop)

/-- The in-loop alpha blend of ApplyDropShadow: combined alpha outA from
the scaled shadow alpha and the existing layer pixel; when outA is positive
the channels are blended and divided by outA (byte casts truncate), and
when outA is zero nothing is written, so the cell keeps its value. -/
def blendShadow (sc : Rgba) (colA : Nat) (existing : Rgba) : Rgba :=
  let srcA : ℚ := (colA : ℚ) / 255
  let dstA : ℚ := (existing.a : ℚ) / 255
  let outA : ℚ := srcA + dstA * (1 - srcA)
  if 0 < outA then
    ⟨ratByte (((sc.r : ℚ) * srcA + (existing.r : ℚ) * dstA * (1 - srcA)) / outA),
     ratByte (((sc.g : ℚ) * srcA + (existing.g : ℚ) * dstA * (1 - srcA)) / outA),
     ratByte (((sc.b : ℚ) * srcA + (existing.b : ℚ) * dstA * (1 - srcA)) / outA),
     ratByte (outA * 255)⟩
  else existing

/-- One iteration of the shadow drawing loop of ApplyDropShadow: a source
pixel with positive alpha composites the shadow color — its alpha scaled by
the source alpha over 255 — onto the shadow layer at the offset position,
provided that position is inside the canvas. -/
def shadowStep (img : Buffer) (dx dy : Int) (sc : Rgba)
    (L : Nat → Nat → Rgba) (p : Nat × Nat) : Nat → Nat → Rgba :=
  if 0 < (img.pix p.1 p.2).a then
    if 0 ≤ (p.1 : Int) + dx ∧ (p.1 : Int) + dx < (img.width : Int)
        ∧ 0 ≤ (p.2 : Int) + dy ∧ (p.2 : Int) + dy < (img.height : Int) then
      fun u v =>
        if u = ((p.1 : Int) + dx).toNat ∧ v = ((p.2 : Int) + dy).toNat then
          blendShadow sc (sc.a * (img.pix p.1 p.2).a / 255) (L u v)
        else L u v
    else L
  else L

/-- The full shadow drawing loop of ApplyDropShadow over a freshly
allocated transparent shadow layer. -/
def shadowLayer (img : Buffer) (dx dy : Int) (sc : Rgba) : Nat → Nat → Rgba :=
  (pixelSeq img.width img.height).foldl (shadowStep img dx dy sc) (fun _ _ => Rgba.clear)

/-- The source pixel p writes the shadow layer cell (u, v): p has positive
alpha, its offset position is in bounds and lands on (u, v). -/
def touchesCell (img : Buffer) (dx dy : Int) (p : Nat × Nat) (u v : Nat) : Prop :=
  0 < (img.pix p.1 p.2).a ∧
  0 ≤ (p.1 : Int) + dx ∧ (p.1 : Int) + dx < (img.width : Int) ∧
  0 ≤ (p.2 : Int) + dy ∧ (p.2 : Int) + dy < (img.height : Int) ∧
  u = ((p.1 : Int) + dx).toNat ∧ v = ((p.2 : Int) + dy).toNat

instance touchesCellDec (img : Buffer) (dx dy : Int) (p : Nat × Nat) (u v : Nat) :
    Decidable (touchesCell img dx dy p u v) := by
  unfold touchesCell
  exact inferInstance

/-- Read a layer cell with transparent padding outside the canvas. -/
def clampedGet (w h : Nat) (L : Nat → Nat → Rgba) (x y : Int) : Rgba :=
  if 0 ≤ x ∧ x < (w : Int) ∧ 0 ≤ y ∧ y < (h : Int) then L x.toNat y.toNat else Rgba.clear

/-- Modelled from the spec: the Gaussian blur of the shadow layer is
performed by the external imaging library; a symmetric normalized box
average of the given radius stands in for it — the claims under
verification do not depend on the kernel shape. -/
def blurModel (radius w h : Nat) (L : Nat → Nat → Rgba) : Nat → Nat → Rgba :=
  fun x y =>
    let offs : List Int := (List.range (2 * radius + 1)).map
      (fun i => (i : Int) - (radius : Int))
    let pts : List Rgba := offs.flatMap (fun ox => offs.map (fun oy =>
        clampedGet w h L ((x : Int) + ox) ((y : Int) + oy)))
    ⟨(pts.map Rgba.r).sum / pts.length, (pts.map Rgba.g).sum / pts.length,
     (pts.map Rgba.b).sum / pts.length, (pts.map Rgba.a).sum / pts.length⟩

/-- ApplyDropShadow of IconProcessor/Processor.cs: draw the offset shadow
silhouette on a transparent same-size layer, blur it when the radius is
positive, composite the original image over it, and copy the result back
into the input buffer. -/
def applyDropShadow (img : Buffer) (dx dy : Int) (blurRadius : Nat) (sc : Rgba) : Buffer :=
  let L := shadowLayer img dx dy sc
  let L2 := if 0 < blurRadius then blurModel blurRadius img.width img.height L else L
  ⟨img.width, img.height, fun x y =>
    if x < img.width ∧ y < img.height
    then overPixel (img.pix x y) (L2 x y)
    else img.pix x y⟩

/-- The drop shadow test scenario of the specification: a fully opaque
10 by 10 square of color c at the origin of a W by H canvas. -/
def squareImg (W H : Nat) (c : Rgba) : Buffer :=
  ⟨W, H, fun x y => if x < 10 ∧ y < 10 then c else Rgba.clear⟩

/-- The four icon resolutions paired with their fixed atlas X positions, as
in the IconProcessor program. -/
def iconLayers : List (Nat × Nat) := [(64, 0), (32, 64), (16, 96), (8, 112)]

/-- The resolution loop of the IconProcessor Process method: for each
resolution, compute the inset padding min(shadowBlurRadius, resolution / 4),
resize a fresh clone of the trimmed source to resolution minus twice the
padding with center anchor, and draw it into the atlas at the fixed
position offset by the padding. -/
def iconLoop (trimmed : Buffer) : List (Nat × Nat) → Buffer → Except PErr Buffer
  | [], icon => .ok icon
  | rp :: rest, icon =>
    match resizeWithAspectIcon trimmed ((rp.1 - 2 * min 2 (rp.1 / 4) : Nat) : ℚ)
        1 (1/2, 1/2) with
    | .error e => .error e
    | .ok clone =>
      iconLoop trimmed rest
        (drawImageI icon clone ((rp.2 + min 2 (rp.1 / 4) : Nat) : Int)
          ((min 2 (rp.1 / 4) : Nat) : Int))

/-- Process of the IconProcessor program: trim the source once, run the
resolution loop over a fresh 120 by 64 canvas, then apply the drop shadow
with zero offset, blur radius 2 and black at alpha 116. -/
def processIcon (image : Buffer) : Except PErr Buffer :=
  match trimWhitespace image with
  | .error e => .error e
  | .ok trimmed =>
    match iconLoop trimmed iconLayers ⟨120, 64, fun _ _ => Rgba.clear⟩ with
    | .error e => .error e
    | .ok icon => .ok (applyDropShadow icon 0 0 2 ⟨0, 0, 0, 116⟩)

/-- The icon atlas composition as the specification words it: a fixed 120
by 64 canvas; for each resolution R in {64, 32, 16, 8} at X offset
{0, 64, 96, 112} the inset padding is p = min(shadowBlurRadius, R / 4), and
a fresh copy of the once-trimmed source — never the previous layer — is
resized to target R - 2p with center anchor and drawn at
(position + p, p); the drop shadow is applied to the finished atlas. -/
def processIconSpec (image : Buffer) : Except PErr Buffer :=
  match trimWhitespace image with
  | .error e => .error e
  | .ok trimmed =>
    match resizeWithAspectIcon trimmed ((64 - 2 * min 2 (64 / 4) : Nat) : ℚ) 1 (1/2, 1/2) with
    | .error e => .error e
    | .ok t64 =>
      match resizeWithAspectIcon trimmed ((32 - 2 * min 2 (32 / 4) : Nat) : ℚ) 1 (1/2, 1/2) with
      | .error e => .error e
      | .ok t32 =>
        match resizeWithAspectIcon trimmed ((16 - 2 * min 2 (16 / 4) : Nat) : ℚ)
            1 (1/2, 1/2) with
        | .error e => .error e
        | .ok t16 =>
          match resizeWithAspectIcon trimmed ((8 - 2 * min 2 (8 / 4) : Nat) : ℚ)
              1 (1/2, 1/2) with
          | .error e => .error e
          | .ok t8 =>
            .ok (applyDropShadow
              (drawImageI
                (drawImageI
                  (drawImageI
                    (drawImageI (⟨120, 64, fun _ _ => Rgba.clear⟩ : Buffer)
                      t64 ((0 + min 2 (64 / 4) : Nat) : Int) ((min 2 (64 / 4) : Nat) : Int))
                    t32 ((64 + min 2 (32 / 4) : Nat) : Int) ((min 2 (32 / 4) : Nat) : Int))
                  t16 ((96 + min 2 (16 / 4) : Nat) : Int) ((min 2 (16 / 4) : Nat) : Int))
                t8 ((112 + min 2 (8 / 4) : Nat) : Int) ((min 2 (8 / 4) : Nat) : Int))
              0 0 2 ⟨0, 0, 0, 116⟩)

/-- The edge whitespace removal of string Trim in the source. -/
def trimChars (s : List Char) : List Char :=
  ((s.dropWhile Char.isWhitespace).reverse.dropWhile Char.isWhitespace).reverse

/-- The normalization step of ProcessAlignment(string) in the
PictureProcessor program: Trim, then ToLower, then remove every dash and
every underscore (and nothing else). -/
def normalizeAlignment (s : List Char) : List Char :=
  ((trimChars s).map Char.toLower).filter (fun c => !(c == '-' || c == '_'))

/-- Substring containment on character lists: the string Contains calls of
ProcessAlignment(string). -/
def hasTok (needle : List Char) : List Char → Bool
  | [] => needle.isEmpty
  | c :: rest => needle.isPrefixOf (c :: rest) || hasTok needle rest

/-- Containment of a semantic token in a normalized alignment request, as
tested by the Contains calls of ProcessAlignment(string). -/
def containsTok (s : List Char) (tok : String) : Bool := hasTok tok.toList s

/-- ProcessAlignment(string) of the PictureProcessor program: throw on a
null or empty argument (modelled as none); otherwise trim, lowercase and
strip dashes and underscores, then branch on substring containment — the
center or middle branch first (checking top, left, bottom, right in that
order inside it), then left, then right, then top, then bottom, and with
nothing recognized log a warning and default to (0, 0). -/
def resolveAnchor (s : String) : Option (ℚ × ℚ) :=
  if s.isEmpty then none
  else
    let a := normalizeAlignment s.toList
    if containsTok a (r"center") || containsTok a (r"middle") then
      if containsTok a (r"top") then some (1/2, 0)
      else if containsTok a (r"left") then some (0, 1/2)
      else if containsTok a (r"bottom") then some (1/2, 1)
      else if containsTok a (r"right") then some (1, 1/2)
      else some (1/2, 1/2)
    else if containsTok a (r"left") then
      if containsTok a (r"top") then some (0, 0)
      else if containsTok a (r"bottom") then some (0, 1)
      else some (0, 1/2)
    else if containsTok a (r"right") then
      if containsTok a (r"top") then some (1, 0)
      else if containsTok a (r"bottom") then some (1, 1)
      else some (1, 1/2)
    else if containsTok a (r"top") then some (1/2, 0)
    else if containsTok a (r"bottom") then some (1/2, 1)
    else some (0, 0)

/-- ProcessAlignment of PictureProcessor/Processor.cs: scale the centered
alignment by half the difference between the fixed 64 pixel tile size and
the image dimensions. -/
def processAlignment (image : Buffer) (alignment : ℚ × ℚ) : ℚ × ℚ :=
  ((1/2) * (alignment.1 - 1/2) * ((64 : ℚ) - (image.width : ℚ)),
   (1/2) * (alignment.2 - 1/2) * ((64 : ℚ) - (image.height : ℚ)))

/-- ProcessShadowAlignment of PictureProcessor/Processor.cs: start from the
bottom-left alignment of the shadow image, shift right by the rounded half
difference to the tile, nudge by four percent of the image width, pull down
by half the shadow height, add the doubled vertical image offset and one
pixel of aesthetic padding. -/
def processShadowAlignment (image : Buffer) (imageOffset : ℚ × ℚ) (shadowImage : Buffer) :
    ℚ × ℚ :=
  let o := processAlignment shadowImage (0, 1)
  (o.1 + roundTo3 (((64 : ℚ) / 2 - (image.width : ℚ) / 2) / 2)
     + (image.width : ℚ) * (4 / 100) + imageOffset.1,
   o.2 + (shadowImage.height : ℚ) / 2 + imageOffset.2 * 2 + 1)

/-- A buffer has at least one pixel with alpha strictly above 0. -/
def hasOpaque (b : Buffer) : Prop :=
  ∃ x < b.width, ∃ y < b.height, 0 < (b.pix x y).a

/-- Accumulate a guarded minimum over a list: the one-dimensional shape of
the minX and minY components of the TrimWhitespace scan loop. -/
def foldMin {α β : Type} [LinearOrder β] (P : α → Prop) [DecidablePred P]
    (f : α → β) (l : List α) (m : β) : β :=
  l.foldl (fun m p => if P p then min m (f p) else m) m

/-- Accumulate a guarded maximum over a list: the one-dimensional shape of
the maxX and maxY components of the TrimWhitespace scan loop. -/
def foldMax {α β : Type} [LinearOrder β] (P : α → Prop) [DecidablePred P]
    (f : α → β) (l : List α) (m : β) : β :=
  l.foldl (fun m p => if P p then max m (f p) else m) m

section FoldMinMaxLemmas

variable {α β : Type} [LinearOrder β] {P : α → Prop} [DecidablePred P] {f : α → β}

theorem foldMin_nil (m : β) : foldMin P f [] m = m := rfl

theorem foldMin_cons (q : α) (l : List α) (m : β) :
    foldMin P f (q :: l) m = foldMin P f l (if P q then min m (f q) else m) := rfl

theorem foldMax_nil (m : β) : foldMax P f [] m = m := rfl

theorem foldMax_cons (q : α) (l : List α) (m : β) :
    foldMax P f (q :: l) m = foldMax P f l (if P q then max m (f q) else m) := rfl

theorem foldMin_le_init (l : List α) : ∀ m : β, foldMin P f l m ≤ m := by
  induction l with
  | nil => intro m; exact le_refl m
  | cons q l ih =>
    intro m
    rw [foldMin_cons]
    refine le_trans (ih _) ?_
    split
    · exact min_le_left _ _
    · exact le_refl _

theorem init_le_foldMax (l : List α) : ∀ m : β, m ≤ foldMax P f l m := by
  induction l with
  | nil => intro m; exact le_refl m
  | cons q l ih =>
    intro m
    rw [foldMax_cons]
    refine le_trans ?_ (ih _)
    split
    · exact le_max_left _ _
    · exact le_refl _

theorem foldMin_le_of_mem {p : α} {l : List α} (hp : p ∈ l) (hP : P p) :
    ∀ m : β, foldMin P f l m ≤ f p := by
  induction l with
  | nil => cases hp
  | cons q l ih =>
    intro m
    rw [foldMin_cons]
    rcases List.mem_cons.mp hp with h | h
    · subst h
      refine le_trans (foldMin_le_init l _) ?_
      rw [if_pos hP]
      exact min_le_right _ _
    · exact ih h _

theorem le_foldMax_of_mem {p : α} {l : List α} (hp : p ∈ l) (hP : P p) :
    ∀ m : β, f p ≤ foldMax P f l m := by
  induction l with
  | nil => cases hp
  | cons q l ih =>
    intro m
    rw [foldMax_cons]
    rcases List.mem_cons.mp hp with h | h
    · subst h
      refine le_trans ?_ (init_le_foldMax l _)
      rw [if_pos hP]
      exact le_max_right _ _
    · exact ih h _

theorem foldMin_attain (l : List α) :
    ∀ m : β, foldMin P f l m = m ∨ ∃ p ∈ l, P p ∧ foldMin P f l m = f p := by
  induction l with
  | nil => intro m; exact Or.inl rfl
  | cons q l ih =>
    intro m
    rw [foldMin_cons]
    by_cases hq : P q
    · rw [if_pos hq]
      rcases ih (min m (f q)) with h | ⟨p, hp, hPp, he⟩
      · rcases min_choice m (f q) with hc | hc
        · exact Or.inl (h.trans hc)
        · exact Or.inr ⟨q, List.mem_cons_self q l, hq, h.trans hc⟩
      · exact Or.inr ⟨p, List.mem_cons_of_mem q hp, hPp, he⟩
    · rw [if_neg hq]
      rcases ih m with h | ⟨p, hp, hPp, he⟩
      · exact Or.inl h
      · exact Or.inr ⟨p, List.mem_cons_of_mem q hp, hPp, he⟩

theorem foldMax_attain (l : List α) :
    ∀ m : β, foldMax P f l m = m ∨ ∃ p ∈ l, P p ∧ foldMax P f l m = f p := by
  induction l with
  | nil => intro m; exact Or.inl rfl
  | cons q l ih =>
    intro m
    rw [foldMax_cons]
    by_cases hq : P q
    · rw [if_pos hq]
      rcases ih (max m (f q)) with h | ⟨p, hp, hPp, he⟩
      · rcases max_choice m (f q) with hc | hc
        · exact Or.inl (h.trans hc)
        · exact Or.inr ⟨q, List.mem_cons_self q l, hq, h.trans hc⟩
      · exact Or.inr ⟨p, List.mem_cons_of_mem q hp, hPp, he⟩
    · rw [if_neg hq]
      rcases ih m with h | ⟨p, hp, hPp, he⟩
      · exact Or.inl h
      · exact Or.inr ⟨p, List.mem_cons_of_mem q hp, hPp, he⟩

theorem foldMin_of_none {l : List α} (h : ∀ p ∈ l, ¬ P p) : ∀ m : β, foldMin P f l m = m := by
  induction l with
  | nil => intro m; rfl
  | cons q l ih =>
    intro m
    rw [foldMin_cons, if_neg (h q (List.mem_cons_self q l))]
    exact ih (fun p hp => h p (List.mem_cons_of_mem q hp)) m

theorem foldMax_of_none {l : List α} (h : ∀ p ∈ l, ¬ P p) : ∀ m : β, foldMax P f l m = m := by
  induction l with
  | nil => intro m; rfl
  | cons q l ih =>
    intro m
    rw [foldMax_cons, if_neg (h q (List.mem_cons_self q l))]
    exact ih (fun p hp => h p (List.mem_cons_of_mem q hp)) m

end FoldMinMaxLemmas

theorem mem_pixelSeq {w h : Nat} {p : Nat × Nat} : p ∈ pixelSeq w h ↔ p.1 < w ∧ p.2 < h := by
  obtain ⟨a, b⟩ := p
  show (a, b) ∈ (List.range w) ×ˢ (List.range h) ↔ _
  rw [List.mem_product, List.mem_range, List.mem_range]

theorem nodup_pixelSeq {w h : Nat} : (pixelSeq w h).Nodup :=
  (List.nodup_range w).product (List.nodup_range h)

theorem trimFoldl_minX (b : Buffer) (l : List (Nat × Nat)) :
    ∀ st : ScanState, (l.foldl (scanStep b) st).minX =
      foldMin (fun p => 0 < (b.pix p.1 p.2).a) (fun p => (p.1 : Int)) l st.minX := by
  induction l with
  | nil => intro st; rfl
  | cons q l ih =>
    intro st
    rw [List.foldl_cons, ih, foldMin_cons]
    congr 1
    unfold scanStep
    split <;> rfl

theorem trimFoldl_minY (b : Buffer) (l : List (Nat × Nat)) :
    ∀ st : ScanState, (l.foldl (scanStep b) st).minY =
      foldMin (fun p => 0 < (b.pix p.1 p.2).a) (fun p => (p.2 : Int)) l st.minY := by
  induction l with
  | nil => intro st; rfl
  | cons q l ih =>
    intro st
    rw [List.foldl_cons, ih, foldMin_cons]
    congr 1
    unfold scanStep
    split <;> rfl

theorem trimFoldl_maxX (b : Buffer) (l : List (Nat × Nat)) :
    ∀ st : ScanState, (l.foldl (scanStep b) st).maxX =
      foldMax (fun p => 0 < (b.pix p.1 p.2).a) (fun p => (p.1 : Int)) l st.maxX := by
  induction l with
  | nil => intro st; rfl
  | cons q l ih =>
    intro st
    rw [List.foldl_cons, ih, foldMax_cons]
    congr 1
    unfold scanStep
    split <;> rfl

theorem trimFoldl_maxY (b : Buffer) (l : List (Nat × Nat)) :
    ∀ st : ScanState, (l.foldl (scanStep b) st).maxY =
      foldMax (fun p => 0 < (b.pix p.1 p.2).a) (fun p => (p.2 : Int)) l st.maxY := by
  induction l with
  | nil => intro st; rfl
  | cons q l ih =>
    intro st
    rw [List.foldl_cons, ih, foldMax_cons]
    congr 1
    unfold scanStep
    split <;> rfl

theorem trimScan_minX (b : Buffer) :
    (trimScan b).minX = foldMin (fun p => 0 < (b.pix p.1 p.2).a)
      (fun p : Nat × Nat => (p.1 : Int)) (pixelSeq b.width b.height) (b.width : Int) :=
  trimFoldl_minX b (pixelSeq b.width b.height) ⟨b.width, b.height, -1, -1⟩

theorem trimScan_minY (b : Buffer) :
    (trimScan b).minY = foldMin (fun p => 0 < (b.pix p.1 p.2).a)
      (fun p : Nat × Nat => (p.2 : Int)) (pixelSeq b.width b.height) (b.height : Int) :=
  trimFoldl_minY b (pixelSeq b.width b.height) ⟨b.width, b.height, -1, -1⟩

theorem trimScan_maxX (b : Buffer) :
    (trimScan b).maxX = foldMax (fun p => 0 < (b.pix p.1 p.2).a)
      (fun p : Nat × Nat => (p.1 : Int)) (pixelSeq b.width b.height) (-1 : Int) :=
  trimFoldl_maxX b (pixelSeq b.width b.height) ⟨b.width, b.height, -1, -1⟩

theorem trimScan_maxY (b : Buffer) :
    (trimScan b).maxY = foldMax (fun p => 0 < (b.pix p.1 p.2).a)
      (fun p : Nat × Nat => (p.2 : Int)) (pixelSeq b.width b.height) (-1 : Int) :=
  trimFoldl_maxY b (pixelSeq b.width b.height) ⟨b.width, b.height, -1, -1⟩

/-- Every opaque in-range pixel lies inside the scanned bounding box. -/
theorem trimScan_le_opaque (b : Buffer) {x y : Nat}
    (hx : x < b.width) (hy : y < b.height) (ha : 0 < (b.pix x y).a) :
    (trimScan b).minX ≤ (x : Int) ∧ (trimScan b).minY ≤ (y : Int) ∧
    (x : Int) ≤ (trimScan b).maxX ∧ (y : Int) ≤ (trimScan b).maxY := by
  have hm : ((x, y) : Nat × Nat) ∈ pixelSeq b.width b.height := mem_pixelSeq.mpr ⟨hx, hy⟩
  refine ⟨?_, ?_, ?_, ?_⟩
  · rw [trimScan_minX]
    exact foldMin_le_of_mem (P := fun p => 0 < (b.pix p.1 p.2).a)
      (f := fun p : Nat × Nat => (p.1 : Int)) hm ha _
  · rw [trimScan_minY]
    exact foldMin_le_of_mem (P := fun p => 0 < (b.pix p.1 p.2).a)
      (f := fun p : Nat × Nat => (p.2 : Int)) hm ha _
  · rw [trimScan_maxX]
    exact le_foldMax_of_mem (P := fun p => 0 < (b.pix p.1 p.2).a)
      (f := fun p : Nat × Nat => (p.1 : Int)) hm ha _
  · rw [trimScan_maxY]
    exact le_foldMax_of_mem (P := fun p => 0 < (b.pix p.1 p.2).a)
      (f := fun p : Nat × Nat => (p.2 : Int)) hm ha _

theorem scanFoldl_of_none (b : Buffer) (l : List (Nat × Nat))
    (h : ∀ p ∈ l, ¬ 0 < (b.pix p.1 p.2).a) : ∀ st, l.foldl (scanStep b) st = st := by
  induction l with
  | nil => intro st; rfl
  | cons q l ih =>
    intro st
    rw [List.foldl_cons]
    have hq : scanStep b st q = st := by
      unfold scanStep
      rw [if_neg (h q (List.mem_cons_self q l))]
    rw [hq]
    exact ih (fun p hp => h p (List.mem_cons_of_mem q hp)) st

/-- Without any opaque pixel the scan state keeps its initial values. -/
theorem trimScan_of_none (b : Buffer) (h : ¬ hasOpaque b) :
    trimScan b = ⟨b.width, b.height, -1, -1⟩ := by
  apply scanFoldl_of_none
  intro p hp hpos
  rw [mem_pixelSeq] at hp
  exact h ⟨p.1, hp.1, p.2, hp.2, hpos⟩

/-- When the scan found something, each of the four bounds is attained at an
opaque in-range pixel. -/
theorem trimScan_attained (b : Buffer) (hne : 0 ≤ (trimScan b).maxX) :
    (∃ p : Nat × Nat, p.1 < b.width ∧ p.2 < b.height ∧ 0 < (b.pix p.1 p.2).a ∧
      (trimScan b).minX = (p.1 : Int)) ∧
    (∃ p : Nat × Nat, p.1 < b.width ∧ p.2 < b.height ∧ 0 < (b.pix p.1 p.2).a ∧
      (trimScan b).minY = (p.2 : Int)) ∧
    (∃ p : Nat × Nat, p.1 < b.width ∧ p.2 < b.height ∧ 0 < (b.pix p.1 p.2).a ∧
      (trimScan b).maxX = (p.1 : Int)) ∧
    (∃ p : Nat × Nat, p.1 < b.width ∧ p.2 < b.height ∧ 0 < (b.pix p.1 p.2).a ∧
      (trimScan b).maxY = (p.2 : Int)) := by
  have hX : ∃ p : Nat × Nat, p.1 < b.width ∧ p.2 < b.height ∧ 0 < (b.pix p.1 p.2).a ∧
      (trimScan b).maxX = (p.1 : Int) := by
    rcases (trimScan_maxX b ▸ foldMax_attain (pixelSeq b.width b.height) (-1 : Int) :
        (trimScan b).maxX = (-1 : Int) ∨ _) with h | ⟨p, hp, hPp, he⟩
    · omega
    · rw [mem_pixelSeq] at hp
      exact ⟨p, hp.1, hp.2, hPp, he⟩
  obtain ⟨q, hq1, hq2, hqa, hqe⟩ := hX
  have hbq := trimScan_le_opaque b hq1 hq2 hqa
  refine ⟨?_, ?_, ⟨q, hq1, hq2, hqa, hqe⟩, ?_⟩
  · rcases (trimScan_minX b ▸ foldMin_attain (pixelSeq b.width b.height) ((b.width : Nat) : Int) :
        (trimScan b).minX = ((b.width : Nat) : Int) ∨ _) with h | ⟨p, hp, hPp, he⟩
    · omega
    · rw [mem_pixelSeq] at hp
      exact ⟨p, hp.1, hp.2, hPp, he⟩
  · rcases (trimScan_minY b ▸ foldMin_attain (pixelSeq b.width b.height) ((b.height : Nat) : Int) :
        (trimScan b).minY = ((b.height : Nat) : Int) ∨ _) with h | ⟨p, hp, hPp, he⟩
    · omega
    · rw [mem_pixelSeq] at hp
      exact ⟨p, hp.1, hp.2, hPp, he⟩
  · rcases (trimScan_maxY b ▸ foldMax_attain (pixelSeq b.width b.height) (-1 : Int) :
        (trimScan b).maxY = (-1 : Int) ∨ _) with h | ⟨p, hp, hPp, he⟩
    · omega
    · rw [mem_pixelSeq] at hp
      exact ⟨p, hp.1, hp.2, hPp, he⟩

/-- Claim C1: a buffer in which no pixel has alpha strictly above 0 makes
trim fail with the empty-image error and produce no output buffer, while a
buffer with at least one pixel of positive alpha makes trim succeed. -/
theorem trim_emptiness (b : Buffer) :
    (¬ hasOpaque b → trimWhitespace b = Except.error PErr.emptyImage) ∧
    (hasOpaque b → ∃ bout, trimWhitespace b = Except.ok bout) := by
  constructor
  · intro h
    unfold trimWhitespace
    rw [trimScan_of_none b h]
    norm_num
  · rintro ⟨x, hx, y, hy, ha⟩
    have hb := trimScan_le_opaque b hx hy ha
    have hcond : ¬ ((trimScan b).maxX < 0 ∨ (trimScan b).maxY < 0) := by omega
    exact ⟨cropOf b, by rw [trimWhitespace, if_neg hcond]⟩

theorem trim_emptiness_witness :
    (¬ hasOpaque sampleEmpty ∧ trimWhitespace sampleEmpty = Except.error PErr.emptyImage) ∧
    (hasOpaque sampleDot ∧ ∃ bout, trimWhitespace sampleDot = Except.ok bout) := by
  have h1 : ¬ hasOpaque sampleEmpty := by
    rintro ⟨x, hx, y, hy, ha⟩
    simp [sampleEmpty, Rgba.clear] at ha
  have h2 : hasOpaque sampleDot := ⟨1, by decide, 0, by decide, by decide⟩
  exact ⟨⟨h1, (trim_emptiness sampleEmpty).1 h1⟩, ⟨h2, (trim_emptiness sampleDot).2 h2⟩⟩

/-- A buffer whose scanned bounding box spans the whole buffer is returned
unchanged by trim. -/
theorem crop_of_tight (c : Buffer)
    (hA : (trimScan c).minX = 0) (hB : (trimScan c).minY = 0)
    (hD : (trimScan c).maxX = (c.width : Int) - 1)
    (hE : (trimScan c).maxY = (c.height : Int) - 1)
    (hw : 0 < c.width) (hh : 0 < c.height) :
    trimWhitespace c = Except.ok c := by
  have hcond : ¬ ((trimScan c).maxX < 0 ∨ (trimScan c).maxY < 0) := by omega
  rw [trimWhitespace, if_neg hcond]
  congr 1
  obtain ⟨w, h, f⟩ := c
  have e1 : ((trimScan (Buffer.mk w h f)).maxX - (trimScan (Buffer.mk w h f)).minX + 1).toNat
      = w := by rw [hA, hD]; simp only [Buffer.mk.injEq]; omega
  have e2 : ((trimScan (Buffer.mk w h f)).maxY - (trimScan (Buffer.mk w h f)).minY + 1).toNat
      = h := by rw [hB, hE]; simp only [Buffer.mk.injEq]; omega
  have e3 : (trimScan (Buffer.mk w h f)).minX.toNat = 0 := by rw [hA]; rfl
  have e4 : (trimScan (Buffer.mk w h f)).minY.toNat = 0 := by rw [hB]; rfl
  unfold cropOf
  rw [e1, e2, e3, e4]
  rfl

/-- Trimming the cropped output of a successful trim changes nothing. -/
theorem trim_crop_idem (b : Buffer)
    (h1 : 0 ≤ (trimScan b).maxX) (h2 : 0 ≤ (trimScan b).maxY) :
    trimWhitespace (cropOf b) = Except.ok (cropOf b) := by
  obtain ⟨⟨pn, hpn1, hpn2, hpna, hpne⟩, ⟨qn, hqn1, hqn2, hqna, hqne⟩,
          ⟨px, hpx1, hpx2, hpxa, hpxe⟩, ⟨qy, hqy1, hqy2, hqya, hqye⟩⟩ := trimScan_attained b h1
  obtain ⟨hbpn1, hbpn2, hbpn3, hbpn4⟩ := trimScan_le_opaque b hpn1 hpn2 hpna
  obtain ⟨hbqn1, hbqn2, hbqn3, hbqn4⟩ := trimScan_le_opaque b hqn1 hqn2 hqna
  obtain ⟨hbpx1, hbpx2, hbpx3, hbpx4⟩ := trimScan_le_opaque b hpx1 hpx2 hpxa
  obtain ⟨hbqy1, hbqy2, hbqy3, hbqy4⟩ := trimScan_le_opaque b hqy1 hqy2 hqya
  have hww : (cropOf b).width = ((trimScan b).maxX - (trimScan b).minX + 1).toNat := rfl
  have hhh : (cropOf b).height = ((trimScan b).maxY - (trimScan b).minY + 1).toNat := rfl
  have hpixc : ∀ x y : Nat, (cropOf b).pix x y
      = b.pix (x + (trimScan b).minX.toNat) (y + (trimScan b).minY.toNat) := fun _ _ => rfl
  -- the four transported attaining pixels of the cropped buffer
  have hm0 : ((0, pn.2 - (trimScan b).minY.toNat) : Nat × Nat)
      ∈ pixelSeq (cropOf b).width (cropOf b).height := by
    rw [mem_pixelSeq, hww, hhh]
    constructor <;> omega
  have ha0 : 0 < ((cropOf b).pix 0 (pn.2 - (trimScan b).minY.toNat)).a := by
    rw [hpixc]
    have e1 : 0 + (trimScan b).minX.toNat = pn.1 := by omega
    have e2 : pn.2 - (trimScan b).minY.toNat + (trimScan b).minY.toNat = pn.2 := by omega
    rw [e1, e2]
    exact hpna
  have hm1 : ((qn.1 - (trimScan b).minX.toNat, 0) : Nat × Nat)
      ∈ pixelSeq (cropOf b).width (cropOf b).height := by
    rw [mem_pixelSeq, hww, hhh]
    constructor <;> omega
  have ha1 : 0 < ((cropOf b).pix (qn.1 - (trimScan b).minX.toNat) 0).a := by
    rw [hpixc]
    have e1 : qn.1 - (trimScan b).minX.toNat + (trimScan b).minX.toNat = qn.1 := by omega
    have e2 : 0 + (trimScan b).minY.toNat = qn.2 := by omega
    rw [e1, e2]
    exact hqna
  have hm2 : ((px.1 - (trimScan b).minX.toNat, px.2 - (trimScan b).minY.toNat) : Nat × Nat)
      ∈ pixelSeq (cropOf b).width (cropOf b).height := by
    rw [mem_pixelSeq, hww, hhh]
    constructor <;> omega
  have ha2 : 0 < ((cropOf b).pix (px.1 - (trimScan b).minX.toNat)
      (px.2 - (trimScan b).minY.toNat)).a := by
    rw [hpixc]
    have e1 : px.1 - (trimScan b).minX.toNat + (trimScan b).minX.toNat = px.1 := by omega
    have e2 : px.2 - (trimScan b).minY.toNat + (trimScan b).minY.toNat = px.2 := by omega
    rw [e1, e2]
    exact hpxa
  have hm3 : ((qy.1 - (trimScan b).minX.toNat, qy.2 - (trimScan b).minY.toNat) : Nat × Nat)
      ∈ pixelSeq (cropOf b).width (cropOf b).height := by
    rw [mem_pixelSeq, hww, hhh]
    constructor <;> omega
  have ha3 : 0 < ((cropOf b).pix (qy.1 - (trimScan b).minX.toNat)
      (qy.2 - (trimScan b).minY.toNat)).a := by
    rw [hpixc]
    have e1 : qy.1 - (trimScan b).minX.toNat + (trimScan b).minX.toNat = qy.1 := by omega
    have e2 : qy.2 - (trimScan b).minY.toNat + (trimScan b).minY.toNat = qy.2 := by omega
    rw [e1, e2]
    exact hqya
  -- the rescan of the crop yields the full extent
  have hA : (trimScan (cropOf b)).minX = 0 := by
    have hle : (trimScan (cropOf b)).minX ≤ ((0 : Nat) : Int) := by
      rw [trimScan_minX]
      exact foldMin_le_of_mem (P := fun p => 0 < ((cropOf b).pix p.1 p.2).a)
        (f := fun p : Nat × Nat => (p.1 : Int)) hm0 ha0 _
    have hge : 0 ≤ (trimScan (cropOf b)).minX := by
      rcases (trimScan_minX (cropOf b) ▸
          foldMin_attain (pixelSeq (cropOf b).width (cropOf b).height)
            (((cropOf b).width : Nat) : Int) :
          (trimScan (cropOf b)).minX = (((cropOf b).width : Nat) : Int) ∨ _)
        with hcase | ⟨p, hp, hPp, he⟩
      · omega
      · omega
    omega
  have hB : (trimScan (cropOf b)).minY = 0 := by
    have hle : (trimScan (cropOf b)).minY ≤ ((0 : Nat) : Int) := by
      rw [trimScan_minY]
      exact foldMin_le_of_mem (P := fun p => 0 < ((cropOf b).pix p.1 p.2).a)
        (f := fun p : Nat × Nat => (p.2 : Int)) hm1 ha1 _
    have hge : 0 ≤ (trimScan (cropOf b)).minY := by
      rcases (trimScan_minY (cropOf b) ▸
          foldMin_attain (pixelSeq (cropOf b).width (cropOf b).height)
            (((cropOf b).height : Nat) : Int) :
          (trimScan (cropOf b)).minY = (((cropOf b).height : Nat) : Int) ∨ _)
        with hcase | ⟨p, hp, hPp, he⟩
      · omega
      · omega
    omega
  have hD : (trimScan (cropOf b)).maxX = ((cropOf b).width : Int) - 1 := by
    have hge : ((px.1 - (trimScan b).minX.toNat : Nat) : Int) ≤ (trimScan (cropOf b)).maxX := by
      rw [trimScan_maxX]
      exact le_foldMax_of_mem (P := fun p => 0 < ((cropOf b).pix p.1 p.2).a)
        (f := fun p : Nat × Nat => (p.1 : Int)) hm2 ha2 _
    have hval : ((px.1 - (trimScan b).minX.toNat : Nat) : Int) = ((cropOf b).width : Int) - 1 := by
      rw [hww]; omega
    rw [hval] at hge
    have hle : (trimScan (cropOf b)).maxX ≤ ((cropOf b).width : Int) - 1 := by
      rcases (trimScan_maxX (cropOf b) ▸
          foldMax_attain (pixelSeq (cropOf b).width (cropOf b).height) (-1 : Int) :
          (trimScan (cropOf b)).maxX = (-1 : Int) ∨ _)
        with hcase | ⟨p, hp, hPp, he⟩
      · omega
      · rw [mem_pixelSeq] at hp
        have := hp.1
        omega
    omega
  have hE : (trimScan (cropOf b)).maxY = ((cropOf b).height : Int) - 1 := by
    have hge : ((qy.2 - (trimScan b).minY.toNat : Nat) : Int) ≤ (trimScan (cropOf b)).maxY := by
      rw [trimScan_maxY]
      exact le_foldMax_of_mem (P := fun p => 0 < ((cropOf b).pix p.1 p.2).a)
        (f := fun p : Nat × Nat => (p.2 : Int)) hm3 ha3 _
    have hval : ((qy.2 - (trimScan b).minY.toNat : Nat) : Int)
        = ((cropOf b).height : Int) - 1 := by
      rw [hhh]; omega
    rw [hval] at hge
    have hle : (trimScan (cropOf b)).maxY ≤ ((cropOf b).height : Int) - 1 := by
      rcases (trimScan_maxY (cropOf b) ▸
          foldMax_attain (pixelSeq (cropOf b).width (cropOf b).height) (-1 : Int) :
          (trimScan (cropOf b)).maxY = (-1 : Int) ∨ _)
        with hcase | ⟨p, hp, hPp, he⟩
      · omega
      · rw [mem_pixelSeq] at hp
        have := hp.2
        omega
    omega
  refine crop_of_tight (cropOf b) hA hB hD hE ?_ ?_
  · rw [hww]; omega
  · rw [hhh]; omega

/-- Claim C2: trim is idempotent — the output of a successful trim is itself
returned unchanged by trim, so trim (trim x) equals trim x for every buffer
with at least one pixel of positive alpha. -/
theorem trim_idempotent (b bout : Buffer) (h : trimWhitespace b = Except.ok bout) :
    trimWhitespace bout = Except.ok bout := by
  rw [trimWhitespace] at h
  by_cases hc : (trimScan b).maxX < 0 ∨ (trimScan b).maxY < 0
  · rw [if_pos hc] at h
    cases h
  · rw [if_neg hc] at h
    injection h with hb
    subst hb
    exact trim_crop_idem b (by omega) (by omega)

theorem trim_idempotent_witness :
    trimWhitespace sampleDot = Except.ok (cropOf sampleDot) ∧
    trimWhitespace (cropOf sampleDot) = Except.ok (cropOf sampleDot) := by
  have h0 : trimWhitespace sampleDot = Except.ok (cropOf sampleDot) := by
    rw [trimWhitespace, if_neg (by decide)]
  exact ⟨h0, trim_idempotent sampleDot (cropOf sampleDot) h0⟩

theorem roundToEven_nonpos (q : ℚ) (hq : q ≤ 0) : roundToEven q ≤ 0 := by
  unfold roundToEven
  have hf : ⌊q⌋ ≤ 0 := by
    calc ⌊q⌋ ≤ ⌊(0 : ℚ)⌋ := Int.floor_le_floor hq
    _ = 0 := Int.floor_zero
  have hfq : (⌊q⌋ : ℚ) ≤ q := Int.floor_le q
  split_ifs with h1 h2 h3
  · exact hf
  · have h4 : (1 : ℚ)/2 ≤ q - ⌊q⌋ := not_lt.mp h1
    have h5 : (⌊q⌋ : ℚ) < 0 := by linarith
    have h6 : ⌊q⌋ < 0 := by exact_mod_cast h5
    omega
  · exact hf
  · have h4 : (1 : ℚ)/2 ≤ q - ⌊q⌋ := not_lt.mp h1
    have h5 : (⌊q⌋ : ℚ) < 0 := by linarith
    have h6 : ⌊q⌋ < 0 := by exact_mod_cast h5
    omega

/-- Claim C3 counterexample: on a 1 by 2 buffer with target size 5 and
scale 1 the code rounds the computed width 5/2 down to 2 (ties to even),
while the round-half-away-from-zero mode stated by the claim yields 3. -/
theorem resizeDims_counterexample :
    (resizeDims 1 2 5 1).1 = 2 ∧
    roundHalfAwayFromZero (((1 : Nat) : ℚ) * ((5 : ℚ) / ((2 : Nat) : ℚ)) * 1) = 3 ∧
    (resizeDims 1 2 5 1).1
      ≠ roundHalfAwayFromZero (((1 : Nat) : ℚ) * ((5 : ℚ) / ((2 : Nat) : ℚ)) * 1) := by
  have e : ((1 : Nat) : ℚ) * ((5 : ℚ) / ((2 : Nat) : ℚ)) * 1 = 5/2 := by
    push_cast
    ring
  have hfloor : ⌊(5/2 : ℚ)⌋ = 2 := by
    rw [Int.floor_eq_iff]
    norm_num
  have h1 : (resizeDims 1 2 5 1).1 = 2 := by
    unfold resizeDims
    rw [if_neg (by norm_num)]
    show roundToEven (((1 : Nat) : ℚ) * ((5 : ℚ) / ((2 : Nat) : ℚ)) * 1) = 2
    rw [e, roundToEven, hfloor]
    norm_num
  have h2 : roundHalfAwayFromZero (((1 : Nat) : ℚ) * ((5 : ℚ) / ((2 : Nat) : ℚ)) * 1) = 3 := by
    rw [e, roundHalfAwayFromZero, if_pos (by norm_num)]
    have e2 : (5 : ℚ)/2 + 1/2 = 3 := by norm_num
    rw [e2]
    rw [Int.floor_eq_iff]
    norm_num
  refine ⟨h1, h2, ?_⟩
  rw [h1, h2]
  decide

/-- Claim C3 (amended): for positive input dimensions the resize dimension
computation picks width as the governing axis exactly when W is at least H
(the tie lands in the height branch of the code but yields identical exact
dimensions), fits the governing dimension to the target, derives the other
from the exact aspect ratio, multiplies by the scale, and rounds each to the
nearest integer with ties to the nearest even integer (not away from
zero). -/
theorem resizeDims_governing (w h : Nat) (T s : ℚ) (hw : 0 < w) (hh : 0 < h) :
    resizeDims w h T s
      = (roundToEven ((if h ≤ w then T else (w : ℚ) * (T / (h : ℚ))) * s),
         roundToEven ((if h ≤ w then (h : ℚ) * (T / (w : ℚ)) else T) * s)) := by
  unfold resizeDims
  by_cases hlt : h < w
  · rw [if_pos hlt, if_pos hlt.le, if_pos hlt.le]
  · have hwle : w ≤ h := not_lt.mp hlt
    rw [if_neg hlt]
    rcases lt_or_eq_of_le hwle with hlt2 | heq
    · rw [if_neg (not_le.mpr hlt2), if_neg (not_le.mpr hlt2)]
    · subst heq
      rw [if_pos le_rfl, if_pos le_rfl]
      have hcast : ((w : ℚ)) ≠ 0 := Nat.cast_ne_zero.mpr (by omega)
      have e : (w : ℚ) * (T / (w : ℚ)) = T := by
        field_simp
      rw [e]

theorem resizeDims_governing_witness :
    0 < 2 ∧ resizeDims 2 2 7 1
      = (roundToEven ((if (2 : Nat) ≤ (2 : Nat) then (7 : ℚ)
            else ((2 : Nat) : ℚ) * ((7 : ℚ) / ((2 : Nat) : ℚ))) * 1),
         roundToEven ((if (2 : Nat) ≤ (2 : Nat) then ((2 : Nat) : ℚ) * ((7 : ℚ) / ((2 : Nat) : ℚ))
            else (7 : ℚ)) * 1)) :=
  ⟨by norm_num, resizeDims_governing 2 2 7 1 (by norm_num) (by norm_num)⟩

/-- Claim C7: ProcessAlignment returns exactly half the anchor deviation
from center times the difference between the fixed 64 pixel tile and the
image dimensions; in particular a 64 by 64 image at anchor (1/2, 1/2) gets
offset (0, 0). -/
theorem processAlignment_formula (image : Buffer) (anchor : ℚ × ℚ) :
    processAlignment image anchor
      = ((1/2) * (anchor.1 - 1/2) * ((64 : ℚ) - (image.width : ℚ)),
         (1/2) * (anchor.2 - 1/2) * ((64 : ℚ) - (image.height : ℚ))) ∧
    (image.width = 64 → image.height = 64 →
      processAlignment image (1/2, 1/2) = (0, 0)) := by
  refine ⟨rfl, fun hw hh => ?_⟩
  unfold processAlignment
  rw [hw, hh]
  norm_num

theorem processAlignment_formula_witness :
    sample64.width = 64 ∧ processAlignment sample64 (1/2, 1/2) = (0, 0) :=
  ⟨rfl, (processAlignment_formula sample64 (1/2, 1/2)).2 rfl rfl⟩

/-- Claim C6: ProcessShadowAlignment returns exactly the bottom-left
suggested offset of the shadow image, plus on X the rounded half difference
between half the tile and half the image width, the four percent width
nudge and the image offset, and on Y half the shadow height, the doubled
vertical image offset and the fixed aesthetic padding of one. -/
theorem processShadowAlignment_formula (image : Buffer) (imageOffset : ℚ × ℚ)
    (shadowImage : Buffer) :
    processShadowAlignment image imageOffset shadowImage
      = ((processAlignment shadowImage (0, 1)).1
           + roundTo3 (((64 : ℚ) / 2 - (image.width : ℚ) / 2) / 2)
           + (image.width : ℚ) * (4 / 100) + imageOffset.1,
         (processAlignment shadowImage (0, 1)).2
           + (shadowImage.height : ℚ) / 2 + imageOffset.2 * 2 + 1) := rfl

/-- Claim C8: whenever the requested target size, or the computed square
canvas side Math.Round(targetSize * scale), is non-positive, both
ResizeWithAspect overloads fail with InvalidDimensionError. -/
theorem resize_invalid_dimension (b : Buffer) (targetSize scale : ℚ) (anchor : ℚ × ℚ)
    (hs : 0 ≤ scale)
    (hbad : targetSize ≤ 0 ∨ roundToEven (targetSize * scale) ≤ 0) :
    resizeWithAspectIcon b targetSize scale anchor = Except.error PErr.invalidDimension ∧
    resizeWithAspectPic b targetSize scale = Except.error PErr.invalidDimension := by
  have hr : roundToEven (targetSize * scale) ≤ 0 := by
    rcases hbad with hT | hR
    · refine roundToEven_nonpos _ ?_
      nlinarith [mul_nonneg (neg_nonneg.mpr hT) hs]
    · exact hR
  have hdim : (resizeDims b.width b.height targetSize scale).1 ≤ 0
      ∨ (resizeDims b.width b.height targetSize scale).2 ≤ 0 := by
    unfold resizeDims
    by_cases hc : b.height < b.width
    · rw [if_pos hc]
      exact Or.inl hr
    · rw [if_neg hc]
      exact Or.inr hr
  constructor
  · show (if (resizeDims b.width b.height targetSize scale).1 ≤ 0
        ∨ (resizeDims b.width b.height targetSize scale).2 ≤ 0
      then Except.error PErr.invalidDimension else _) = _
    rw [if_pos hdim]
  · show (if (resizeDims b.width b.height targetSize scale).1 ≤ 0
        ∨ (resizeDims b.width b.height targetSize scale).2 ≤ 0
      then Except.error PErr.invalidDimension else _) = _
    rw [if_pos hdim]

theorem resize_invalid_dimension_witness :
    (0 : ℚ) ≤ 1 ∧ ((-1 : ℚ) ≤ 0 ∨ roundToEven ((-1 : ℚ) * 1) ≤ 0) ∧
    resizeWithAspectIcon sampleDot (-1) 1 (1/2, 1/2) = Except.error PErr.invalidDimension ∧
    resizeWithAspectPic sampleDot (-1) 1 = Except.error PErr.invalidDimension := by
  have h0 : (0 : ℚ) ≤ 1 := by norm_num
  have h1 : ((-1 : ℚ) ≤ 0 ∨ roundToEven ((-1 : ℚ) * 1) ≤ 0) := Or.inl (by norm_num)
  have h2 := resize_invalid_dimension sampleDot (-1) 1 (1/2, 1/2) h0 h1
  exact ⟨h0, h1, h2.1, h2.2⟩

/-- Claim C9: resolveAnchor maps semantic alignment tokens case and
punctuation insensitively by substring containment in the priority order of
the source: center gives (1/2, 1/2), Top-Left gives (0, 0), bottom right
gives (1, 1), and every non-empty input containing no recognized token
degrades to (0, 0) — a logged warning, not an error. -/
theorem resolveAnchor_examples :
    resolveAnchor (r"center") = some (1/2, 1/2) ∧
    resolveAnchor (r"Top-Left") = some (0, 0) ∧
    resolveAnchor (r"bottom right") = some (1, 1) ∧
    resolveAnchor (r"gibberish") = some (0, 0) ∧
    (∀ s : String, s.isEmpty = false →
      containsTok (normalizeAlignment s.toList) (r"center") = false →
      containsTok (normalizeAlignment s.toList) (r"middle") = false →
      containsTok (normalizeAlignment s.toList) (r"left") = false →
      containsTok (normalizeAlignment s.toList) (r"right") = false →
      containsTok (normalizeAlignment s.toList) (r"top") = false →
      containsTok (normalizeAlignment s.toList) (r"bottom") = false →
      resolveAnchor s = some (0, 0)) := by
  refine ⟨?_, ?_, ?_, ?_, ?_⟩
  · simp only [resolveAnchor]
    rw [show String.isEmpty (r"center") = false from rfl,
        show containsTok (normalizeAlignment (String.toList (r"center"))) (r"center")
          = true from rfl,
        show containsTok (normalizeAlignment (String.toList (r"center"))) (r"top")
          = false from rfl,
        show containsTok (normalizeAlignment (String.toList (r"center"))) (r"left")
          = false from rfl,
        show containsTok (normalizeAlignment (String.toList (r"center"))) (r"bottom")
          = false from rfl,
        show containsTok (normalizeAlignment (String.toList (r"center"))) (r"right")
          = false from rfl]
    norm_num
  · simp only [resolveAnchor]
    rw [show String.isEmpty (r"Top-Left") = false from rfl,
        show containsTok (normalizeAlignment (String.toList (r"Top-Left"))) (r"center")
          = false from rfl,
        show containsTok (normalizeAlignment (String.toList (r"Top-Left"))) (r"middle")
          = false from rfl,
        show containsTok (normalizeAlignment (String.toList (r"Top-Left"))) (r"left")
          = true from rfl,
        show containsTok (normalizeAlignment (String.toList (r"Top-Left"))) (r"top")
          = true from rfl]
    norm_num
  · simp only [resolveAnchor]
    rw [show String.isEmpty (r"bottom right") = false from rfl,
        show containsTok (normalizeAlignment (String.toList (r"bottom right"))) (r"center")
          = false from rfl,
        show containsTok (normalizeAlignment (String.toList (r"bottom right"))) (r"middle")
          = false from rfl,
        show containsTok (normalizeAlignment (String.toList (r"bottom right"))) (r"left")
          = false from rfl,
        show containsTok (normalizeAlignment (String.toList (r"bottom right"))) (r"right")
          = true from rfl,
        show containsTok (normalizeAlignment (String.toList (r"bottom right"))) (r"top")
          = false from rfl,
        show containsTok (normalizeAlignment (String.toList (r"bottom right"))) (r"bottom")
          = true from rfl]
    norm_num
  · simp only [resolveAnchor]
    rw [show String.isEmpty (r"gibberish") = false from rfl,
        show containsTok (normalizeAlignment (String.toList (r"gibberish"))) (r"center")
          = false from rfl,
        show containsTok (normalizeAlignment (String.toList (r"gibberish"))) (r"middle")
          = false from rfl,
        show containsTok (normalizeAlignment (String.toList (r"gibberish"))) (r"left")
          = false from rfl,
        show containsTok (normalizeAlignment (String.toList (r"gibberish"))) (r"right")
          = false from rfl,
        show containsTok (normalizeAlignment (String.toList (r"gibberish"))) (r"top")
          = false from rfl,
        show containsTok (normalizeAlignment (String.toList (r"gibberish"))) (r"bottom")
          = false from rfl]
    norm_num
  · intro s h0 h1 h2 h3 h4 h5 h6
    simp only [resolveAnchor, h0, h1, h2, h3, h4, h5, h6]
    norm_num

theorem resolveAnchor_examples_witness :
    String.isEmpty (r"qq") = false ∧
    containsTok (normalizeAlignment (String.toList (r"qq"))) (r"center") = false ∧
    containsTok (normalizeAlignment (String.toList (r"qq"))) (r"middle") = false ∧
    containsTok (normalizeAlignment (String.toList (r"qq"))) (r"left") = false ∧
    containsTok (normalizeAlignment (String.toList (r"qq"))) (r"right") = false ∧
    containsTok (normalizeAlignment (String.toList (r"qq"))) (r"top") = false ∧
    containsTok (normalizeAlignment (String.toList (r"qq"))) (r"bottom") = false ∧
    resolveAnchor (r"qq") = some (0, 0) :=
  ⟨rfl, rfl, rfl, rfl, rfl, rfl, rfl,
    resolveAnchor_examples.2.2.2.2 (r"qq") rfl rfl rfl rfl rfl rfl rfl⟩

theorem shadowStep_apply (img : Buffer) (dx dy : Int) (sc : Rgba)
    (L : Nat → Nat → Rgba) (p : Nat × Nat) (u v : Nat) :
    shadowStep img dx dy sc L p u v
      = if touchesCell img dx dy p u v
        then blendShadow sc (sc.a * (img.pix p.1 p.2).a / 255) (L u v)
        else L u v := by
  unfold shadowStep touchesCell
  by_cases h1 : 0 < (img.pix p.1 p.2).a
  · rw [if_pos h1]
    by_cases h2 : 0 ≤ (p.1 : Int) + dx ∧ (p.1 : Int) + dx < (img.width : Int)
        ∧ 0 ≤ (p.2 : Int) + dy ∧ (p.2 : Int) + dy < (img.height : Int)
    · rw [if_pos h2]
      show (if u = ((p.1 : Int) + dx).toNat ∧ v = ((p.2 : Int) + dy).toNat then _ else _) = _
      by_cases h3 : u = ((p.1 : Int) + dx).toNat ∧ v = ((p.2 : Int) + dy).toNat
      · rw [if_pos h3, if_pos ⟨h1, h2.1, h2.2.1, h2.2.2.1, h2.2.2.2, h3.1, h3.2⟩]
      · rw [if_neg h3, if_neg (fun ht => h3 ⟨ht.2.2.2.2.2.1, ht.2.2.2.2.2.2⟩)]
    · rw [if_neg h2, if_neg (fun ht => h2 ⟨ht.2.1, ht.2.2.1, ht.2.2.2.1, ht.2.2.2.2.1⟩)]
  · rw [if_neg h1, if_neg (fun ht => h1 ht.1)]

theorem shadowFoldl_untouched (img : Buffer) (dx dy : Int) (sc : Rgba)
    (l : List (Nat × Nat)) :
    ∀ (L : Nat → Nat → Rgba) (u v : Nat),
      (∀ p ∈ l, ¬ touchesCell img dx dy p u v) →
      (l.foldl (shadowStep img dx dy sc) L) u v = L u v := by
  induction l with
  | nil => intro L u v _; rfl
  | cons q l ih =>
    intro L u v h
    rw [List.foldl_cons, ih _ u v (fun p hp => h p (List.mem_cons_of_mem q hp)),
        shadowStep_apply, if_neg (h q (List.mem_cons_self q l))]

theorem touchesCell_inj (img : Buffer) (dx dy : Int) (p q : Nat × Nat) (u v : Nat)
    (hp : touchesCell img dx dy p u v) (hq : touchesCell img dx dy q u v) : p = q := by
  obtain ⟨p1, p2⟩ := p
  obtain ⟨q1, q2⟩ := q
  obtain ⟨-, hp1, hp2, hp3, hp4, hp5, hp6⟩ := hp
  obtain ⟨-, hq1, hq2, hq3, hq4, hq5, hq6⟩ := hq
  simp only [Prod.mk.injEq]
  constructor <;> omega

/-- The shadow layer cell reached from an in-range opaque source pixel holds
the blend of the scaled shadow color over the transparent initial layer. -/
theorem shadowLayer_at (img : Buffer) (dx dy : Int) (sc : Rgba) (x y : Nat)
    (hx : x < img.width) (hy : y < img.height) (ha : 0 < (img.pix x y).a)
    (h1 : 0 ≤ (x : Int) + dx) (h2 : (x : Int) + dx < (img.width : Int))
    (h3 : 0 ≤ (y : Int) + dy) (h4 : (y : Int) + dy < (img.height : Int)) :
    shadowLayer img dx dy sc ((x : Int) + dx).toNat ((y : Int) + dy).toNat
      = blendShadow sc (sc.a * (img.pix x y).a / 255) Rgba.clear := by
  have hq : touchesCell img dx dy (x, y) ((x : Int) + dx).toNat ((y : Int) + dy).toNat :=
    ⟨ha, h1, h2, h3, h4, rfl, rfl⟩
  have hmem : ((x, y) : Nat × Nat) ∈ pixelSeq img.width img.height :=
    mem_pixelSeq.mpr ⟨hx, hy⟩
  obtain ⟨l1, l2, hsplit⟩ := List.append_of_mem hmem
  have hnodup : (pixelSeq img.width img.height).Nodup := nodup_pixelSeq
  rw [hsplit] at hnodup
  obtain ⟨hn1, hn2, hdisj⟩ := List.nodup_append.mp hnodup
  have hnotmem1 : ((x, y) : Nat × Nat) ∉ l1 :=
    fun hin => hdisj hin (List.mem_cons_self _ l2)
  have hnotmem2 : ((x, y) : Nat × Nat) ∉ l2 := (List.nodup_cons.mp hn2).1
  have hu1 : ∀ p ∈ l1, ¬ touchesCell img dx dy p ((x : Int) + dx).toNat
      ((y : Int) + dy).toNat := by
    intro p hpmem ht
    rw [touchesCell_inj img dx dy p (x, y) _ _ ht hq] at hpmem
    exact hnotmem1 hpmem
  have hu2 : ∀ p ∈ l2, ¬ touchesCell img dx dy p ((x : Int) + dx).toNat
      ((y : Int) + dy).toNat := by
    intro p hpmem ht
    rw [touchesCell_inj img dx dy p (x, y) _ _ ht hq] at hpmem
    exact hnotmem2 hpmem
  show (pixelSeq img.width img.height).foldl (shadowStep img dx dy sc)
      (fun _ _ => Rgba.clear) _ _ = _
  rw [hsplit, List.foldl_append, List.foldl_cons,
      shadowFoldl_untouched img dx dy sc l2 _ _ _ hu2,
      shadowStep_apply, if_pos hq,
      shadowFoldl_untouched img dx dy sc l1 _ _ _ hu1]

/-- No source pixel can write a shadow layer cell outside the canvas. -/
theorem shadowLayer_oob (img : Buffer) (dx dy : Int) (sc : Rgba) (u v : Nat)
    (h : ¬ (u < img.width ∧ v < img.height)) :
    shadowLayer img dx dy sc u v = Rgba.clear := by
  refine shadowFoldl_untouched img dx dy sc _ _ u v ?_
  intro p hp ht
  obtain ⟨-, h1, h2, h3, h4, h5, h6⟩ := ht
  exact h (by constructor <;> omega)

/-- Blending the scaled shadow color over a transparent cell: a zero scaled
alpha leaves the cell untouched, a positive one writes the shadow color
with the scaled alpha. -/
theorem blendShadow_clear (sc : Rgba) (colA : Nat) :
    blendShadow sc colA Rgba.clear
      = if 0 < colA then ⟨sc.r, sc.g, sc.b, colA⟩ else Rgba.clear := by
  unfold blendShadow Rgba.clear
  simp only [Nat.cast_zero, zero_div, zero_mul, mul_zero, add_zero]
  by_cases hc : 0 < colA
  · have hq : (0 : ℚ) < (colA : ℚ) / 255 := by positivity
    rw [if_pos hq, if_pos hc]
    have hr : ∀ n : Nat, (n : ℚ) * ((colA : ℚ) / 255) / ((colA : ℚ) / 255) = (n : ℚ) := by
      intro n
      rw [mul_div_assoc, div_self (ne_of_gt hq), mul_one]
    have ha : (colA : ℚ) / 255 * 255 = (colA : ℚ) := by
      rw [div_mul_cancel₀]
      norm_num
    rw [hr, hr, hr, ha]
    have hb : ∀ n : Nat, ratByte ((n : ℚ)) = n := by
      intro n
      unfold ratByte
      rw [Int.floor_natCast, Int.toNat_natCast]
    rw [hb, hb, hb, hb]
  · have hc0 : colA = 0 := by omega
    subst hc0
    rw [if_neg hc]
    norm_num

theorem ratByte_natCast (n : Nat) : ratByte ((n : ℚ)) = n := by
  unfold ratByte
  rw [Int.floor_natCast, Int.toNat_natCast]

/-- Compositing a fully opaque pixel over anything returns that pixel. -/
theorem overPixel_opaque (fg bg : Rgba) (h : fg.a = 255) : overPixel fg bg = fg := by
  unfold overPixel
  rw [h]
  have e1 : ((255 : Nat) : ℚ) / 255 = 1 := by norm_num
  rw [e1]
  simp only [sub_self, mul_zero, add_zero, mul_one, div_one]
  rw [if_pos one_pos]
  obtain ⟨r, g, b, a⟩ := fg
  simp only at h
  subst h
  have e2 : (1 : ℚ) * 255 = ((255 : Nat) : ℚ) := by norm_num
  rw [e2, ratByte_natCast, ratByte_natCast, ratByte_natCast, ratByte_natCast]

/-- Compositing a fully transparent pixel over a background keeps the
background when it is visible, and yields the clear pixel otherwise. -/
theorem overPixel_transparent (fg bg : Rgba) (h : fg.a = 0) :
    overPixel fg bg = if 0 < bg.a then ⟨bg.r, bg.g, bg.b, bg.a⟩ else Rgba.clear := by
  unfold overPixel
  rw [h]
  simp only [Nat.cast_zero, zero_div, mul_zero, zero_mul, sub_zero, mul_one, zero_add]
  by_cases hb : 0 < bg.a
  · have hda : (0 : ℚ) < (bg.a : ℚ) / 255 := by positivity
    rw [if_pos hda, if_pos hb]
    have hr : ∀ n : Nat, (n : ℚ) * ((bg.a : ℚ) / 255) / ((bg.a : ℚ) / 255) = (n : ℚ) := by
      intro n
      rw [mul_div_assoc, div_self (ne_of_gt hda), mul_one]
    have ha2 : ((bg.a : ℚ) / 255) * 255 = (bg.a : ℚ) := by
      rw [div_mul_cancel₀]
      norm_num
    rw [hr, hr, hr, ha2, ratByte_natCast, ratByte_natCast, ratByte_natCast, ratByte_natCast]
  · have hb0 : bg.a = 0 := by omega
    rw [if_neg hb, hb0]
    norm_num

/-- The pixel function of ApplyDropShadow inside the canvas: the original
pixel composited over the (optionally blurred) shadow layer. -/
theorem applyDropShadow_pix (img : Buffer) (dx dy : Int) (blurRadius : Nat) (sc : Rgba)
    (u v : Nat) (hu : u < img.width) (hv : v < img.height) :
    (applyDropShadow img dx dy blurRadius sc).pix u v
      = overPixel (img.pix u v)
          ((if 0 < blurRadius then blurModel blurRadius img.width img.height
              (shadowLayer img dx dy sc) else shadowLayer img dx dy sc) u v) := by
  show (if u < img.width ∧ v < img.height then _ else _) = _
  rw [if_pos ⟨hu, hv⟩]

/-- Claim C4: a drop shadow on the fully opaque 10 by 10 square with offset
(2, 2) and blur 0 preserves the buffer dimensions, paints the shadow color
at every in-buffer position of the offset square footprint that lies
outside the original square, and keeps the color of every pixel of the
fully opaque square; offset positions outside the buffer are discarded. -/
theorem dropShadow_square (W H : Nat) (c sc : Rgba)
    (hW : 10 ≤ W) (hH : 10 ≤ H) (hca : c.a = 255) (hsa : 0 < sc.a) :
    (applyDropShadow (squareImg W H c) 2 2 0 sc).width = W ∧
    (applyDropShadow (squareImg W H c) 2 2 0 sc).height = H ∧
    (∀ u v : Nat, u < W → v < H → 2 ≤ u → u ≤ 11 → 2 ≤ v → v ≤ 11 →
      ¬ (u < 10 ∧ v < 10) →
      (applyDropShadow (squareImg W H c) 2 2 0 sc).pix u v = ⟨sc.r, sc.g, sc.b, sc.a⟩) ∧
    (∀ u v : Nat, u < 10 → v < 10 →
      (applyDropShadow (squareImg W H c) 2 2 0 sc).pix u v = c) := by
  refine ⟨rfl, rfl, ?_, ?_⟩
  · intro u v huW hvH hu2 hu11 hv2 hv11 hout
    rw [applyDropShadow_pix (squareImg W H c) 2 2 0 sc u v huW hvH,
        if_neg (lt_irrefl 0)]
    have hpixout : (squareImg W H c).pix u v = Rgba.clear := by
      show (if u < 10 ∧ v < 10 then c else Rgba.clear) = Rgba.clear
      rw [if_neg hout]
    rw [hpixout]
    have halpha : 0 < ((squareImg W H c).pix (u - 2) (v - 2)).a := by
      show 0 < (if u - 2 < 10 ∧ v - 2 < 10 then c else Rgba.clear).a
      rw [if_pos (by omega)]
      omega
    have hlayer := shadowLayer_at (squareImg W H c) 2 2 sc (u - 2) (v - 2)
        (by show u - 2 < W; omega) (by show v - 2 < H; omega) halpha
        (by omega) (by show ((u - 2 : Nat) : Int) + 2 < ((W : Nat) : Int); omega)
        (by omega) (by show ((v - 2 : Nat) : Int) + 2 < ((H : Nat) : Int); omega)
    have hxu : u = (((u - 2 : Nat) : Int) + 2).toNat := by omega
    have hxv : v = (((v - 2 : Nat) : Int) + 2).toNat := by omega
    rw [hxu, hxv, hlayer]
    have hsq : (squareImg W H c).pix (u - 2) (v - 2) = c := by
      show (if u - 2 < 10 ∧ v - 2 < 10 then c else Rgba.clear) = c
      rw [if_pos (by omega)]
    rw [hsq, hca]
    have hdiv : sc.a * 255 / 255 = sc.a := Nat.mul_div_cancel sc.a (by norm_num)
    rw [hdiv, blendShadow_clear, if_pos hsa]
    rw [overPixel_transparent Rgba.clear _ rfl]
    rw [if_pos hsa]
  · intro u v hu hv
    rw [applyDropShadow_pix (squareImg W H c) 2 2 0 sc u v
        (by show u < W; omega) (by show v < H; omega), if_neg (lt_irrefl 0)]
    have hsq : (squareImg W H c).pix u v = c := by
      show (if u < 10 ∧ v < 10 then c else Rgba.clear) = c
      rw [if_pos ⟨hu, hv⟩]
    rw [hsq, overPixel_opaque c _ hca]

theorem dropShadow_square_witness :
    10 ≤ 14 ∧ (0 : Nat) < 116 ∧
    (applyDropShadow (squareImg 14 14 ⟨1, 2, 3, 255⟩) 2 2 0 ⟨4, 5, 6, 116⟩).pix 11 5
      = ⟨4, 5, 6, 116⟩ ∧
    (applyDropShadow (squareImg 14 14 ⟨1, 2, 3, 255⟩) 2 2 0 ⟨4, 5, 6, 116⟩).pix 3 3
      = ⟨1, 2, 3, 255⟩ := by
  have h := dropShadow_square 14 14 ⟨1, 2, 3, 255⟩ ⟨4, 5, 6, 116⟩
    (by norm_num) (by norm_num) rfl (by norm_num)
  refine ⟨by norm_num, by norm_num, ?_, ?_⟩
  · exact h.2.2.1 11 5 (by norm_num) (by norm_num) (by norm_num) (by norm_num)
      (by norm_num) (by norm_num) (by omega)
  · exact h.2.2.2 3 3 (by norm_num) (by norm_num)

/-- Claim C10: ApplyDropShadow is total — it preserves the buffer
dimensions for every input, the shadow drawing loop never writes a cell
outside the canvas (offset positions are bounds checked), and the division
by the combined alpha outA only happens when outA is positive: with a zero
scaled shadow alpha the reached cell stays untouched (transparent), and
with a positive one it receives the well-defined blended shadow pixel. -/
theorem applyDropShadow_safety (img : Buffer) (dx dy : Int) (blurRadius : Nat) (sc : Rgba) :
    ((applyDropShadow img dx dy blurRadius sc).width = img.width ∧
     (applyDropShadow img dx dy blurRadius sc).height = img.height) ∧
    (∀ u v : Nat, ¬ (u < img.width ∧ v < img.height) →
      shadowLayer img dx dy sc u v = Rgba.clear) ∧
    (∀ x y : Nat, x < img.width → y < img.height → 0 < (img.pix x y).a →
      0 ≤ (x : Int) + dx → (x : Int) + dx < (img.width : Int) →
      0 ≤ (y : Int) + dy → (y : Int) + dy < (img.height : Int) →
      (sc.a * (img.pix x y).a / 255 = 0 →
        shadowLayer img dx dy sc ((x : Int) + dx).toNat ((y : Int) + dy).toNat
          = Rgba.clear) ∧
      (0 < sc.a * (img.pix x y).a / 255 →
        shadowLayer img dx dy sc ((x : Int) + dx).toNat ((y : Int) + dy).toNat
          = ⟨sc.r, sc.g, sc.b, sc.a * (img.pix x y).a / 255⟩)) := by
  refine ⟨⟨rfl, rfl⟩, fun u v h => shadowLayer_oob img dx dy sc u v h, ?_⟩
  intro x y hx hy ha h1 h2 h3 h4
  have hlayer := shadowLayer_at img dx dy sc x y hx hy ha h1 h2 h3 h4
  constructor
  · intro hz
    rw [hlayer, hz, blendShadow_clear, if_neg (lt_irrefl 0)]
  · intro hp
    rw [hlayer, blendShadow_clear, if_pos hp]

theorem applyDropShadow_safety_witness :
    (¬ (5 < sampleDot.width ∧ 7 < sampleDot.height) ∧
      shadowLayer sampleDot 0 0 ⟨0, 0, 0, 1⟩ 5 7 = Rgba.clear) ∧
    ((⟨0, 0, 0, 1⟩ : Rgba).a * (sampleDot.pix 1 0).a / 255 = 0 ∧
      shadowLayer sampleDot 0 0 ⟨0, 0, 0, 1⟩ (((1 : Nat) : Int) + 0).toNat
        (((0 : Nat) : Int) + 0).toNat = Rgba.clear) := by
  have h := applyDropShadow_safety sampleDot 0 0 0 (⟨0, 0, 0, 1⟩ : Rgba)
  have hoob : ¬ (5 < sampleDot.width ∧ 7 < sampleDot.height) := by decide
  have hzero : (⟨0, 0, 0, 1⟩ : Rgba).a * (sampleDot.pix 1 0).a / 255 = 0 := by decide
  refine ⟨⟨hoob, h.2.1 5 7 hoob⟩, ⟨hzero, ?_⟩⟩
  exact (h.2.2 1 0 (by decide) (by decide) (by decide) (by decide) (by decide)
    (by decide) (by decide)).1 hzero

/-- Claim C5: the icon atlas pipeline equals, for every input, the
composition worded by the specification — fixed 120 by 64 canvas, four
layers for resolutions 64, 32, 16, 8 at X offsets 0, 64, 96, 112, inset
padding min(blur, R / 4), each layer resized independently from the trimmed
source to R minus twice the padding with center anchor and drawn at
(position + padding, padding), and the drop shadow applied to the finished
atlas. -/
theorem processIcon_eq_spec (image : Buffer) : processIcon image = processIconSpec image := by
  unfold processIcon processIconSpec
  cases htrim : trimWhitespace image with
  | error e => rfl
  | ok t =>
    simp only [iconLayers, iconLoop]
    cases h64 : resizeWithAspectIcon t ((64 - 2 * min 2 (64 / 4) : Nat) : ℚ) 1 (1/2, 1/2) with
    | error e => rfl
    | ok t64 =>
      cases h32 : resizeWithAspectIcon t ((32 - 2 * min 2 (32 / 4) : Nat) : ℚ) 1 (1/2, 1/2) with
      | error e => rfl
      | ok t32 =>
        cases h16 : resizeWithAspectIcon t ((16 - 2 * min 2 (16 / 4) : Nat) : ℚ)
            1 (1/2, 1/2) with
        | error e => rfl
        | ok t16 =>
          cases h8 : resizeWithAspectIcon t ((8 - 2 * min 2 (8 / 4) : Nat) : ℚ)
              1 (1/2, 1/2) with
          | error e => rfl
          | ok t8 => rfl

end GEARBoxFactorio
